import Mathlib

/-!
Shallow embedding of the locale-resolution, content-lookup, category-filter,
project-page, WhatsApp-link and typed-text-cycler logic of the portfolio
site, together with theorems settling the specification's claims.

String-valued JSON objects are embedded as association lists
(`List (String × α)`); JavaScript strings are embedded as Lean `String`
(or `List Char` for the character-level animation), and JavaScript
`undefined` as `Option.none`.
-/

namespace Portfolio

/-! ### Locale Resolver (i18n request config)

From the `getRequestConfig` callback:
`const locales = ["es"]; let locale = await requestLocale;
 if (!locale || !locales.includes(locale as any)) { locale = "es"; }`.
JavaScript `!locale` is true when the value is `undefined` or the empty
string, so an absent request locale is `none` and falsiness is the
`l = ""` test. -/

def locales : List String := ["es"]

def defaultLocale : String := "es"

def resolveLocale (requestLocale : Option String) : String :=
  let l := requestLocale.getD ""
  if l = "" || !(locales.contains l) then defaultLocale else l

/-! ### WhatsApp deep-link builder (utils)

From `formatWhatsAppNumber` (`phone.replace(/\D/g, '')`) and
`createWhatsAppURL`, which interpolates
`https://wa.me/${formattedPhone}${encodedMessage ? `?text=...` : ''}`.
`encodeURIComponent` leaves the unreserved characters
`A-Z a-z 0-9 - _ . ! ~ * ' ( )` unchanged and percent-encodes the UTF-8
bytes of every other character with uppercase hexadecimal digits. -/

def formatWhatsAppNumber (phone : String) : String :=
  ⟨phone.data.filter Char.isDigit⟩

def uriUnreserved (c : Char) : Bool :=
  c.isAlphanum ||
    [45, 95, 46, 33, 126, 42, 39, 40, 41].contains c.toNat

def utf8Bytes (c : Char) : List Nat :=
  let n := c.toNat
  if n < 128 then [n]
  else if n < 2048 then [192 + n / 64, 128 + n % 64]
  else if n < 65536 then
    [224 + n / 4096, 128 + (n / 64) % 64, 128 + n % 64]
  else
    [240 + n / 262144, 128 + (n / 4096) % 64, 128 + (n / 64) % 64,
      128 + n % 64]

def hexDigit (n : Nat) : Char :=
  if n < 10 then Char.ofNat (48 + n) else Char.ofNat (55 + n)

def percentEncodeByte (b : Nat) : List Char :=
  ['%', hexDigit (b / 16), hexDigit (b % 16)]

def encodeChar (c : Char) : List Char :=
  if uriUnreserved c then [c] else (utf8Bytes c).flatMap percentEncodeByte

def encodeURIComponent (s : String) : String :=
  ⟨s.data.flatMap encodeChar⟩

def createWhatsAppURL (phone : String) (message : Option String) : String :=
  let formattedPhone := formatWhatsAppNumber phone
  let encodedMessage :=
    match message with
    | some m => if m = "" then "" else encodeURIComponent m
    | none => ""
  "https://wa.me/" ++ formattedPhone ++
    (if encodedMessage = "" then "" else "?text=" ++ encodedMessage)

/-! ### Localized JSON field reads (project detail page)

The enhanced project detail page reads locale-varying fields in two
distinct forms: bare indexing `project.title[locale as Locale]`
(lines 58-60) and fallback indexing
`field[locale as Locale] || field.en` (lines 367-384).  A JSON object
keyed by locale code is embedded as an association list; JavaScript
`||` on string values falls through when the left side is `undefined`
or the empty string (both falsy). -/

def bareFieldRead (field : List (String × String)) (locale : String) :
    Option String :=
  List.lookup locale field

def fallbackFieldRead (field : List (String × String)) (locale : String) :
    Option String :=
  match List.lookup locale field with
  | some v => if v = "" then List.lookup "en" field else some v
  | none => List.lookup "en" field

/-! ### Site-content bundle lookup (layout metadata generation)

From `const localeData = siteContent[locale as "es"] || siteContent.es;`:
the per-locale bundle map is indexed by the requested locale and falls
back to the `es` bundle when that key is absent (a bundle object is
truthy whenever present). -/

def getSiteContent {α : Type} (content : List (String × α))
    (locale : String) : Option α :=
  match List.lookup locale content with
  | some bundle => some bundle
  | none => List.lookup "es" content

/-! ### Case studies: category filter and detail page

`Project` keeps the fields the claims need: the locale-invariant
`slug`, `featured`, `category` tags, and the locale-varying text fields
as locale-keyed association lists.  The filter is
`filter === "all" ? projects.filter(p => p.featured)
 : projects.filter(p => p.featured && p.category.includes(filter))`
from `ProjectsSection`; the detail page is
`projectsData.projects.find(p => p.slug === slug)` followed by
`if (!project) { notFound(); }`. -/

structure Project where
  slug : String
  featured : Bool
  category : List String
  title : List (String × String)
  tagline : List (String × String)
  challenge : List (String × String)
deriving DecidableEq

def filterProjects (projects : List Project) (filter : String) :
    List Project :=
  if filter = "all" then projects.filter (fun p => p.featured)
  else projects.filter (fun p => p.featured && p.category.contains filter)

inductive PageResult where
  | notFound : PageResult
  | render : Project → PageResult
deriving DecidableEq

def ProjectPage (projects : List Project) (slug : String) : PageResult :=
  match projects.find? (fun p => p.slug == slug) with
  | none => PageResult.notFound
  | some project => PageResult.render project

/-- Spec-side definition for the refinement claim about the category
filter: "the subsequence of entries satisfying the predicate, in
original source order", written by direct recursion on the list. -/
def subsequenceWhere (pred : Project → Bool) : List Project → List Project
  | [] => []
  | p :: rest =>
    if pred p then p :: subsequenceWhere pred rest
    else subsequenceWhere pred rest

/-! ### Typed-Text Cycler (`AnimatedText`)

State is `{ currentIndex, currentText, isDeleting }`.  Each timer tick
runs the body of the effect: when typing and `currentText.length <
targetText.length`, set `currentText = targetText.slice(0,
currentText.length + 1)`; when typing and complete, set
`isDeleting = true` (after the pause delay); when deleting and
non-empty, set `currentText = currentText.slice(0, -1)`; when deleting
and empty, reset `isDeleting` and advance
`currentIndex = (currentIndex + 1) % texts.length`.  The configured
speeds only set timer delays and do not affect the state transitions,
so the embedding abstracts them away.  Strings are embedded as `List
Char`. -/

structure TypedTextState where
  currentIndex : Nat
  currentText : List Char
  isDeleting : Bool
deriving DecidableEq

def initTypedText : TypedTextState := ⟨0, [], false⟩

def tick (texts : List (List Char)) (s : TypedTextState) : TypedTextState :=
  let targetText := texts.getD s.currentIndex []
  if s.isDeleting = false then
    if s.currentText.length < targetText.length then
      { s with currentText := targetText.take (s.currentText.length + 1) }
    else
      { s with isDeleting := true }
  else
    if 0 < s.currentText.length then
      { s with currentText := s.currentText.dropLast }
    else
      { currentIndex := (s.currentIndex + 1) % texts.length,
        currentText := [], isDeleting := false }

/-- The substrings the cycler emits over the first `n` ticks: the value
of `currentText` after each tick at which it changed. -/
def emittedSubstrings (texts : List (List Char)) (n : Nat) :
    List (List Char) :=
  (List.range n).filterMap (fun k =>
    if ((tick texts)^[k + 1] initTypedText).currentText ≠
        ((tick texts)^[k] initTypedText).currentText then
      some ((tick texts)^[k + 1] initTypedText).currentText
    else none)

/-- The cycler's invariant: the sequence index stays in range and the
accumulated substring is a prefix of the current target string. -/
def TypedTextInv (texts : List (List Char)) (s : TypedTextState) : Prop :=
  s.currentIndex < texts.length ∧
    s.currentText <+: texts.getD s.currentIndex []

def animatedDemoTexts : List (List Char) := [['A'], ['B', 'C']]

/-- A concrete per-locale site-content map (bundles abbreviated to
strings) used to instantiate witnesses. -/
def demoSiteContent : List (String × String) :=
  [("en", "English bundle"), ("es", "Spanish bundle"),
    ("pt", "Portuguese bundle")]

/-- A concrete text sequence whose first entry is the empty string. -/
def emptyFirstTexts : List (List Char) := [[], ['A']]

/-- A concrete case study used to instantiate witnesses. -/
def demoProject : Project :=
  { slug := "vacation-rental-launch"
    featured := true
    category := ["vacation-rentals", "branding"]
    title := [("en", "Launch"), ("es", "Lanzamiento")]
    tagline := [("en", "Growth"), ("es", "Crecimiento")]
    challenge := [("en", "Visibility"), ("es", "Visibilidad")] }

end Portfolio

namespace Portfolio

/-- Helper: the UTF-8 byte list of a character is never empty. -/
theorem utf8Bytes_ne_nil (c : Char) : utf8Bytes c ≠ [] := by
  unfold utf8Bytes
  dsimp only
  split_ifs <;> simp

/-- Helper: encoding a single character never yields the empty list. -/
theorem encodeChar_ne_nil (c : Char) : encodeChar c ≠ [] := by
  unfold encodeChar
  split
  · simp
  · cases hu : utf8Bytes c with
    | nil => exact absurd hu (utf8Bytes_ne_nil c)
    | cons b bs => simp [hu, percentEncodeByte, List.flatMap_cons]

/-- Helper: the encoded form of a non-empty message is non-empty. -/
theorem encodeURIComponent_ne_empty (m : String) (h : m ≠ "") :
    encodeURIComponent m ≠ "" := by
  unfold encodeURIComponent
  intro hc
  apply h
  cases m with
  | mk data =>
    cases data with
    | nil => rfl
    | cons c rest =>
      exfalso
      have : encodeChar c ++ rest.flatMap encodeChar = [] := by
        simpa [List.flatMap_cons] using congrArg String.data hc
      exact encodeChar_ne_nil c (List.append_eq_nil.mp this).1

/-- **C1**: the Locale Resolver is total: an absent, empty or
unsupported request locale resolves to the default locale, and every
member of the supported set resolves to itself unchanged. -/
theorem resolveLocale_total_spec :
    (∀ s : Option String,
        (s = none ∨ s = some "" ∨ ∀ v, s = some v → v ∉ locales) →
        resolveLocale s = defaultLocale) ∧
    ∀ v ∈ locales, resolveLocale (some v) = v := by
  constructor
  · rintro s (rfl | rfl | h)
    · rfl
    · rfl
    · cases s with
      | none => rfl
      | some v =>
        have hv : v ∉ locales := h v rfl
        have hv' : v ≠ "es" := by simpa [locales] using hv
        simp [resolveLocale, locales, defaultLocale, hv']
  · intro v hv
    have hv' : v = "es" := by simpa [locales] using hv
    subst hv'
    decide

/-- Witness for **C1** at the concrete inputs `"fr"` (unsupported) and
`"es"` (supported). -/
theorem resolveLocale_total_spec_witness :
    resolveLocale (some "fr") = defaultLocale ∧
      resolveLocale (some "es") = "es" :=
  ⟨resolveLocale_total_spec.1 (some "fr")
      (Or.inr (Or.inr (fun v hv => by
        injection hv with h
        subst h
        decide))),
    resolveLocale_total_spec.2 "es" (by decide)⟩

/-- Helper: the spec-side subsequence definition agrees with
`List.filter`. -/
theorem subsequenceWhere_eq_filter (pred : Project → Bool)
    (l : List Project) : subsequenceWhere pred l = l.filter pred := by
  induction l with
  | nil => rfl
  | cons p rest ih =>
    by_cases h : pred p <;>
      simp [subsequenceWhere, List.filter_cons, h, ih]

/-- **C3**: the category filter returns, for "all", exactly the
subsequence of featured entries in source order; for any other
category, exactly the subsequence of featured entries whose tag set
contains it, in source order; and the empty list (not an error) when
nothing matches. -/
theorem filterProjects_spec (projects : List Project) (category : String) :
    List.Sublist (filterProjects projects category) projects ∧
    (category = "all" →
      filterProjects projects category =
        subsequenceWhere (fun p => p.featured) projects) ∧
    (category ≠ "all" →
      filterProjects projects category =
        subsequenceWhere
          (fun p => p.featured && p.category.contains category) projects) ∧
    ((∀ p ∈ projects,
        ¬(p.featured = true ∧
          (category = "all" ∨ p.category.contains category = true))) →
      filterProjects projects category = []) := by
  refine ⟨?_, ?_, ?_, ?_⟩
  · unfold filterProjects
    split <;> exact List.filter_sublist _
  · intro h
    subst h
    simp [filterProjects, subsequenceWhere_eq_filter]
  · intro h
    simp [filterProjects, h, subsequenceWhere_eq_filter]
  · intro h
    by_cases hall : category = "all"
    · subst hall
      have hfp : filterProjects projects "all" =
          projects.filter (fun p => p.featured) := by
        simp [filterProjects]
      rw [hfp, List.filter_eq_nil_iff]
      intro p hp hpf
      exact h p hp ⟨hpf, Or.inl rfl⟩
    · have hfp : filterProjects projects category =
          projects.filter
            (fun p => p.featured && p.category.contains category) := by
        simp [filterProjects, hall]
      rw [hfp, List.filter_eq_nil_iff]
      intro p hp hpred
      rw [Bool.and_eq_true] at hpred
      exact h p hp ⟨hpred.1, Or.inr hpred.2⟩

/-- Witness for **C3** at a concrete one-element case-study list and
concrete categories. -/
theorem filterProjects_spec_witness :
    filterProjects [demoProject] "branding" =
      subsequenceWhere
        (fun p => p.featured && p.category.contains "branding")
        [demoProject] ∧
      filterProjects [demoProject] "paid-ads" = [] :=
  ⟨(filterProjects_spec [demoProject] "branding").2.2.1 (by decide),
    (filterProjects_spec [demoProject] "paid-ads").2.2.2 (by decide)⟩

/-- **C9**: the "all" category filter is idempotent: filtering the
"all"-filtered result again by "all" yields the same sequence. -/
theorem filterProjects_all_idempotent (projects : List Project) :
    filterProjects (filterProjects projects "all") "all" =
      filterProjects projects "all" := by
  simp [filterProjects, List.filter_filter]

/-- **C4**: a requested slug matching no case study yields the
not-found outcome; a slug matching some case study renders a project
carrying that slug. -/
theorem ProjectPage_spec (projects : List Project) (slug : String) :
    ((∀ p ∈ projects, p.slug ≠ slug) →
      ProjectPage projects slug = PageResult.notFound) ∧
    (∀ p ∈ projects, p.slug = slug →
      ∃ q, ProjectPage projects slug = PageResult.render q ∧
        q.slug = slug ∧ q ∈ projects) := by
  constructor
  · intro h
    unfold ProjectPage
    have hnone : projects.find? (fun p => p.slug == slug) = none := by
      rw [List.find?_eq_none]
      intro p hp
      simpa using h p hp
    rw [hnone]
  · intro p hp hslug
    have hex : (projects.find? (fun p => p.slug == slug)).isSome := by
      rw [List.find?_isSome]
      exact ⟨p, hp, by simp [hslug]⟩
    obtain ⟨q, hq⟩ := Option.isSome_iff_exists.mp hex
    refine ⟨q, ?_, ?_, List.mem_of_find?_eq_some hq⟩
    · unfold ProjectPage
      rw [hq]
    · simpa using List.find?_some hq

/-- Witness for **C4**: the spec's scenario slug
`"nonexistent-project"` yields not-found, and the demo project's own
slug renders it. -/
theorem ProjectPage_spec_witness :
    ProjectPage [demoProject] "nonexistent-project" =
      PageResult.notFound ∧
    ∃ q, ProjectPage [demoProject] "vacation-rental-launch" =
        PageResult.render q ∧
      q.slug = "vacation-rental-launch" ∧ q ∈ [demoProject] :=
  ⟨(ProjectPage_spec [demoProject] "nonexistent-project").1 (by decide),
    (ProjectPage_spec [demoProject] "vacation-rental-launch").2
      demoProject (by decide) (by decide)⟩

/-- **C7**: when the locale key is absent from the top-level per-locale
content map, the metadata-generation lookup falls back to the default
(`es`) bundle, so the content returned equals the content for `es`. -/
theorem getSiteContent_fallback {α : Type} (content : List (String × α))
    (locale : String) (habs : List.lookup locale content = none) :
    getSiteContent content locale = List.lookup "es" content ∧
    getSiteContent content locale = getSiteContent content "es" := by
  have hes : getSiteContent content "es" = List.lookup "es" content := by
    unfold getSiteContent
    cases h : List.lookup "es" content <;> simp [h]
  have hloc : getSiteContent content locale = List.lookup "es" content := by
    unfold getSiteContent
    rw [habs]
  exact ⟨hloc, by rw [hloc, hes]⟩

/-- Witness for **C7**: the spec's scenario — locale `"fr"` requested
against a map with keys `en`, `es`, `pt` returns the `es` bundle. -/
theorem getSiteContent_fallback_witness :
    getSiteContent demoSiteContent "fr" =
      getSiteContent demoSiteContent "es" ∧
    getSiteContent demoSiteContent "fr" = some "Spanish bundle" :=
  ⟨(getSiteContent_fallback demoSiteContent "fr" (by decide)).2,
    by decide⟩

/-- **C2** (divergence exhibited): the detail page's bare field read
`project.title[locale]` yields `undefined` for a localized field whose
translation for the requested locale is missing, even when the
default-locale (`en`-keyed fallback) entry is present — while the
fallback read used elsewhere in the same page returns that entry.  With
the middleware always resolving to locale `"es"`, a title translated
only as `en` is read as `undefined` at line 58 of the detail page. -/
theorem bareFieldRead_undefined_on_missing_translation :
    bareFieldRead [("en", "Launch")] "es" = none ∧
    fallbackFieldRead [("en", "Launch")] "es" = some "Launch" := by
  decide

/-- **C5 counterexample**: at phone `"+34 611 200787"` and message
`"Hi!"` the produced link is `https://wa.me/34611200787?text=Hi!`: the
digits appear in the URL path, so the link contains no `phone=`
parameter at all, and `encodeURIComponent` leaves `!` unescaped, so it
contains `text=Hi!` rather than `text=Hi%21`. -/
theorem createWhatsAppURL_claim_counterexample :
    createWhatsAppURL "+34 611 200787" (some "Hi!") =
      "https://wa.me/34611200787?text=Hi!" ∧
    ¬ List.IsInfix "phone=34611200787".data
        (createWhatsAppURL "+34 611 200787" (some "Hi!")).data ∧
    ¬ List.IsInfix "text=Hi%21".data
        (createWhatsAppURL "+34 611 200787" (some "Hi!")).data := by
  decide

/-- **C5 amended**: the link builder strips all non-digit characters
from the phone number into the URL path and appends the
percent-encoded message as a `text` query parameter exactly when the
message is present and non-empty; no `text` parameter is appended for
an absent or empty message. -/
theorem createWhatsAppURL_spec (phone : String) (message : String)
    (h : message ≠ "") :
    createWhatsAppURL phone (some message) =
      "https://wa.me/" ++ String.mk (phone.data.filter Char.isDigit) ++
        "?text=" ++ encodeURIComponent message ∧
    createWhatsAppURL phone none =
      "https://wa.me/" ++ String.mk (phone.data.filter Char.isDigit) ∧
    createWhatsAppURL phone (some "") =
      "https://wa.me/" ++ String.mk (phone.data.filter Char.isDigit) := by
  refine ⟨?_, ?_, ?_⟩
  · simp [createWhatsAppURL, formatWhatsAppNumber, h,
      encodeURIComponent_ne_empty message h, String.append_assoc]
  · simp [createWhatsAppURL, formatWhatsAppNumber]
  · simp [createWhatsAppURL, formatWhatsAppNumber]

/-- Witness for **C5 amended** at a concrete phone and message. -/
theorem createWhatsAppURL_spec_witness :
    createWhatsAppURL "+34 611 200787" (some "Hola") =
      "https://wa.me/" ++
        String.mk ("+34 611 200787".data.filter Char.isDigit) ++
        "?text=" ++ encodeURIComponent "Hola" :=
  (createWhatsAppURL_spec "+34 611 200787" "Hola" (by decide)).1

/-- **C6**: on the sequence `["A", "BC"]` one full cycle emits the
substrings `"A"`, `""` for the first string and `"B"`, `"BC"`, `"B"`,
`""` for the second, after which the state returns to the initial one,
the sequence index having wrapped to 0; and in general a deleting tick
on a non-empty substring removes its last character, while a deleting
tick on the empty substring advances the index modulo the sequence
length and returns to typing. -/
theorem animatedText_cycle_trace :
    emittedSubstrings animatedDemoTexts 10 =
      [['A'], [], ['B'], ['B', 'C'], ['B'], []] ∧
    (tick animatedDemoTexts)^[10] initTypedText = initTypedText ∧
    (∀ (texts : List (List Char)) (s : TypedTextState),
      s.isDeleting = true → s.currentText ≠ [] →
      tick texts s = { s with currentText := s.currentText.dropLast }) ∧
    (∀ (texts : List (List Char)) (s : TypedTextState),
      s.isDeleting = true → s.currentText = [] →
      tick texts s =
        ⟨(s.currentIndex + 1) % texts.length, [], false⟩) := by
  refine ⟨by decide, by decide, ?_, ?_⟩
  · intro texts s hdel hne
    simp [tick, hdel, List.length_pos.mpr hne]
  · intro texts s hdel hemp
    simp [tick, hdel, hemp]

/-- Witness for **C6**'s general deleting-tick clauses at concrete
states of the demo run. -/
theorem animatedText_cycle_trace_witness :
    tick animatedDemoTexts ⟨1, ['B'], true⟩ =
      { (⟨1, ['B'], true⟩ : TypedTextState) with
          currentText := (['B'] : List Char).dropLast } ∧
    tick animatedDemoTexts ⟨1, [], true⟩ =
      ⟨(1 + 1) % animatedDemoTexts.length, [], false⟩ :=
  ⟨animatedText_cycle_trace.2.2.1 animatedDemoTexts ⟨1, ['B'], true⟩
      rfl (by decide),
    animatedText_cycle_trace.2.2.2 animatedDemoTexts ⟨1, [], true⟩
      rfl rfl⟩

/-- **C8 counterexample**: with the sequence `["", "A"]` the first
tick on the zero-length target does not advance past it — the machine
merely switches to deleting, still at index 0, so the transition
onward is not immediate and does consume ticks. -/
theorem animatedText_empty_target_not_immediate :
    tick emptyFirstTexts initTypedText = ⟨0, [], true⟩ ∧
    (tick emptyFirstTexts initTypedText).currentIndex ≠ 1 := by
  decide

/-- **C8 amended**: on a zero-length target string the cycler advances
past it after two ticks (one entering the deleting phase, one
advancing the index modulo the sequence length), emitting no non-empty
substring for it. -/
theorem animatedText_empty_target_two_ticks (texts : List (List Char))
    (i : Nat) (h : texts.getD i [] = []) :
    tick texts (tick texts ⟨i, [], false⟩) =
      ⟨(i + 1) % texts.length, [], false⟩ ∧
    (tick texts ⟨i, [], false⟩).currentText = [] ∧
    (tick texts ⟨i, [], false⟩).isDeleting = true := by
  simp only [List.getD_eq_getElem?_getD] at h
  have h1 : tick texts ⟨i, [], false⟩ = ⟨i, [], true⟩ := by
    simp [tick, h]
  refine ⟨?_, by rw [h1], by rw [h1]⟩
  rw [h1]
  simp [tick]

/-- Witness for **C8 amended** on the sequence `["", "A"]`. -/
theorem animatedText_empty_target_two_ticks_witness :
    tick emptyFirstTexts (tick emptyFirstTexts ⟨0, [], false⟩) =
      ⟨(0 + 1) % emptyFirstTexts.length, [], false⟩ :=
  (animatedText_empty_target_two_ticks emptyFirstTexts 0 rfl).1

/-- **C10**: for a non-empty text sequence the initial state satisfies,
and every tick preserves, the invariant that the sequence index is in
range and the accumulated substring is a prefix of the current target
string. -/
theorem animatedText_invariant (texts : List (List Char))
    (h : texts ≠ []) :
    TypedTextInv texts initTypedText ∧
    ∀ s, TypedTextInv texts s → TypedTextInv texts (tick texts s) := by
  have hlen : 0 < texts.length := List.length_pos.mpr h
  constructor
  · exact ⟨hlen, List.nil_prefix⟩
  intro s hs
  obtain ⟨i, t, d⟩ := s
  unfold TypedTextInv at hs ⊢
  simp only [List.getD_eq_getElem?_getD] at hs ⊢
  obtain ⟨hi, hpre⟩ := hs
  cases d with
  | false =>
    by_cases hlt : t.length < (texts[i]?.getD []).length
    · have heq : tick texts ⟨i, t, false⟩ =
          ⟨i, (texts[i]?.getD []).take (t.length + 1), false⟩ := by
        simp [tick, hlt]
      rw [heq]
      exact ⟨hi, List.take_prefix _ _⟩
    · have heq : tick texts ⟨i, t, false⟩ = ⟨i, t, true⟩ := by
        simp [tick, hlt]
      rw [heq]
      exact ⟨hi, hpre⟩
  | true =>
    cases t with
    | nil =>
      have heq : tick texts ⟨i, [], true⟩ =
          ⟨(i + 1) % texts.length, [], false⟩ := by
        simp [tick]
      rw [heq]
      exact ⟨Nat.mod_lt _ hlen, List.nil_prefix⟩
    | cons c cs =>
      have heq : tick texts ⟨i, c :: cs, true⟩ =
          ⟨i, (c :: cs).dropLast, true⟩ := by
        simp [tick]
      rw [heq]
      exact ⟨hi, (List.dropLast_prefix _).trans hpre⟩

/-- Witness for **C10** on the demo sequence: the invariant holds
initially and after one tick. -/
theorem animatedText_invariant_witness :
    TypedTextInv animatedDemoTexts
      (tick animatedDemoTexts initTypedText) :=
  (animatedText_invariant animatedDemoTexts (by decide)).2 initTypedText
    (animatedText_invariant animatedDemoTexts (by decide)).1

end Portfolio
